import Mathlib

/-!
# Verification of the flapjack transport core and user-agent builder

Shallow embedding of the `gridlhq/flapjack` Python SDK pieces under
verification:

* `UserAgent` (`sdks/python/flapjacksearch/http/user_agent.py`): the mutable
  `value` string is embedded as explicit state; each method becomes a function
  from the old value to the new one.

* The transport core (Host Registry, Retry Strategy, Transporter, Task
  Waiter): the repository ships only its tests and callers, so these
  components are modelled from the specification (`spec.md` sections 3, 4.1,
  4.2, 4.4), as marked on each definition.  Times are `Nat` timestamps, call
  types are bit masks as in the SDK's `CallType` flag enum, and the network is
  an oracle assigning an attempt outcome to every host.
-/

/-! ## UserAgent (from `sdks/python/flapjacksearch/http/user_agent.py`) -/

namespace UserAgent

/-- `UserAgent.__init__`: `self.value = "Flapjack for Python ({}); Python ({})"
formatted with the package `__version__` and `python_version()`.  Both are
environment inputs, passed here as parameters. -/
def init (version pythonVersion : String) : String :=
  "Flapjack for Python (" ++ version ++ "); Python (" ++ pythonVersion ++ ")"

/-- `UserAgent.get`: returns `self.value`. -/
def get (value : String) : String :=
  value

/-- `UserAgent.add`: appends `"; {segment}"` to `self.value`, then
`" ({version})"` when a version is given.  The Python method mutates
`self.value` and returns `self`; in the embedding it maps the old value to
the new one, and chaining is function composition. -/
def add (value : String) (segment : String) (version : Option String) : String :=
  let value := value ++ "; " ++ segment
  match version with
  | some v => value ++ " (" ++ v ++ ")"
  | none => value

/-- A finite sequence of `add` calls applied in order. -/
def addAll (value : String) : List (String × Option String) → String
  | [] => value
  | (seg, ver) :: rest => addAll (add value seg ver) rest

end UserAgent

/-! ## Host registry (modelled from the spec) -/

/-- Modelled from the spec: host `health` is one of `up` or
`down-until(timestamp)` (spec section 3, **Host**). -/
inductive Health where
  | up : Health
  | downUntil (t : Nat) : Health
deriving DecidableEq

/-- Modelled from the spec: a candidate host (spec section 3, **Host**):
`url`, `scheme`, `accepted_call_types` (a bit mask, as in the SDK's
`CallType` flag enum used by the tests: READ = 1, WRITE = 2), `priority`
(lower preferred) and mutable `health`. -/
structure Host where
  url : String
  scheme : String
  accept : Nat
  priority : Nat
  health : Health
deriving DecidableEq

/-- The READ call-type flag. -/
def READ : Nat := 1

/-- The WRITE call-type flag. -/
def WRITE : Nat := 2

/-- Modelled from the spec: a host serves a call type when its
`accepted_call_types` is a superset of the requested flags (spec section
4.1), i.e. the mask contains every requested bit. -/
def accepts (h : Host) (ct : Nat) : Bool :=
  h.accept &&& ct == ct

/-- The priority preorder on hosts: lower `priority` preferred. -/
def priorityLE (a b : Host) : Prop :=
  a.priority ≤ b.priority

instance : DecidableRel priorityLE :=
  fun a b => Nat.decLe a.priority b.priority

instance : IsTotal Host priorityLE :=
  ⟨fun a b => Nat.le_total a.priority b.priority⟩

instance : IsTrans Host priorityLE :=
  ⟨fun _ _ _ => Nat.le_trans⟩

/-- Modelled from the spec: `filter(call_type)` returns only hosts accepting
the call type, ordered by priority then original insertion order — a stable
sort (spec section 4.1).  `List.insertionSort` is stable, matching the
contract. -/
def filterHosts (hosts : List Host) (ct : Nat) : List Host :=
  List.insertionSort priorityLE (hosts.filter (fun h => accepts h ct))

/-- Modelled from the spec: a host is selectable at time `now` unless its
health is `down-until(t)` with `now` before `t`; once `t` has passed it is
eligible again (spec section 3 invariant). -/
def isUp (h : Host) (now : Nat) : Bool :=
  match h.health with
  | Health.up => true
  | Health.downUntil t => decide (t ≤ now)

/-- Modelled from the spec: down-marked hosts are skipped unless every host
in the filtered list is currently down, in which case the whole list is
retried anyway (spec section 4.2 step 2). -/
def hostsToTry (hosts : List Host) (now : Nat) : List Host :=
  let upHosts := hosts.filter (fun h => isUp h now)
  if upHosts.isEmpty then hosts else upHosts

/-- Modelled from the spec: `mark_success(host)` clears any down state on
that host (spec section 4.1).  Hosts are identified by `url`. -/
def markSuccess (reg : List Host) (u : String) : List Host :=
  reg.map fun h => if h.url = u then { h with health := Health.up } else h

/-- Modelled from the spec: `mark_failure(host, now)` sets
`health = down-until(now + cooldown)`; the cooldown is a fixed configuration
value, not growing per host (spec section 4.1). -/
def markFailure (reg : List Host) (u : String) (now cooldown : Nat) : List Host :=
  reg.map fun h =>
    if h.url = u then { h with health := Health.downUntil (now + cooldown) } else h

/-! ## Retry strategy and transporter (modelled from the spec) -/

/-- Modelled from the spec: the outcome of one HTTP attempt (spec section 3,
**Attempt outcome**): success with status and body, retryable failure
(connection refused/timeout, 5xx, DNS), or fatal failure (4xx, malformed
body). -/
inductive Outcome where
  | success (status : Nat) (body : String) : Outcome
  | retryable (reason : String) : Outcome
  | fatal (status : Nat) (body : String) : Outcome
deriving DecidableEq

/-- Whether an outcome is a retryable failure. -/
def Outcome.isRetryable : Outcome → Bool
  | Outcome.retryable _ => true
  | _ => false

/-- Modelled from the spec: the result `execute` surfaces to the caller
(spec sections 4.2 and 6): decoded body, `ConfigurationError`,
`RequestFailedError(status, body)`, or `AllHostsFailedError`. -/
inductive ExecResult where
  | ok (body : String) : ExecResult
  | configError : ExecResult
  | fatalError (status : Nat) (body : String) : ExecResult
  | allHostsFailed : ExecResult
deriving DecidableEq

/-- Modelled from the spec: attempt hosts strictly in the given order (spec
section 4.2 steps 2-4).  On success, `mark_success` and return immediately;
on retryable failure, `mark_failure` and move to the next host; on fatal
failure, stop immediately; when the list is exhausted, fail with the
aggregate error.  `responses` is the network oracle.  Returns the result,
the ordered list of hosts actually attempted, and the updated registry. -/
def runAttempts (responses : Host → Outcome) (now cooldown : Nat) :
    List Host → List Host → ExecResult × List Host × List Host
  | reg, [] => (ExecResult.allHostsFailed, [], reg)
  | reg, h :: rest =>
    match responses h with
    | Outcome.success _ body => (ExecResult.ok body, [h], markSuccess reg h.url)
    | Outcome.fatal s b => (ExecResult.fatalError s b, [h], reg)
    | Outcome.retryable _ =>
      let r := runAttempts responses now cooldown (markFailure reg h.url now cooldown) rest
      (r.1, h :: r.2.1, r.2.2)

/-- Modelled from the spec: `Transporter.execute` for one logical call (spec
sections 4.2 and 4.3): filter the registry by call type, fail with
`ConfigurationError` if the result is empty, otherwise attempt the
skip-down-unless-all-down ordering of the filtered hosts. -/
def execute (responses : Host → Outcome) (reg : List Host) (ct now cooldown : Nat) :
    ExecResult × List Host × List Host :=
  if (filterHosts reg ct).isEmpty then (ExecResult.configError, [], reg)
  else runAttempts responses now cooldown reg (hostsToTry (filterHosts reg ct) now)

/-! ## Task waiter (modelled from the spec) -/

/-- Modelled from the spec: a poll response distinguishes `published` from
`notPublished` (spec section 6, task status endpoint). -/
inductive TaskStatus where
  | published : TaskStatus
  | notPublished : TaskStatus
deriving DecidableEq

/-- Modelled from the spec: the terminal states of `wait` relevant here
(spec section 4.4): `published` on success, `timedOut` when the wait budget
is exhausted. -/
inductive WaitResult where
  | published : WaitResult
  | timedOut : WaitResult
deriving DecidableEq

/-- Modelled from the spec: the polling loop of `Task Waiter.wait` (spec
section 4.4).  `status k` is the response to the `k`-th poll (0-based),
`fuel` the number of polls the remaining wait budget still allows, `k` the
number of polls already issued.  Returns the terminal state and the total
number of polls issued. -/
def waitAux (status : Nat → TaskStatus) : Nat → Nat → WaitResult × Nat
  | 0, k => (WaitResult.timedOut, k)
  | fuel + 1, k =>
    if status k = TaskStatus.published then (WaitResult.published, k + 1)
    else waitAux status fuel (k + 1)

/-- Modelled from the spec: with a fixed poll interval, a max-wait budget
allows `maxWait / pollInterval + 1` polls (one at elapsed time 0 and one per
full interval elapsed within the budget). -/
def maxPolls (pollInterval maxWait : Nat) : Nat :=
  maxWait / pollInterval + 1

/-- Modelled from the spec: `wait(index_name, task_id, timeout)` — poll at a
fixed interval until a poll reports `published` or the max-wait budget is
exhausted, in which case it fails with `TaskTimeoutError` (spec section 4.4,
here the `timedOut` result). -/
def wait (status : Nat → TaskStatus) (pollInterval maxWait : Nat) : WaitResult × Nat :=
  waitAux status (maxPolls pollInterval maxWait) 0

/-! ## Concrete instances used for evaluation -/

/-- A host down until time 100, highest priority, serving READ and WRITE. -/
def hostA : Host :=
  { url := "a.example", scheme := "https", accept := 3, priority := 1,
    health := Health.downUntil 100 }

/-- An up host at priority 2 serving READ and WRITE. -/
def hostB : Host :=
  { url := "b.example", scheme := "https", accept := 3, priority := 2,
    health := Health.up }

/-- An up host at priority 3 serving READ and WRITE. -/
def hostC : Host :=
  { url := "c.example", scheme := "https", accept := 3, priority := 3,
    health := Health.up }

/-- A host down until time 120 at priority 2, serving READ and WRITE. -/
def hostBdown : Host :=
  { url := "bdown.example", scheme := "https", accept := 3, priority := 2,
    health := Health.downUntil 120 }

/-- A read-only host at priority 2. -/
def hostR : Host :=
  { url := "r.example", scheme := "https", accept := 1, priority := 2,
    health := Health.up }

/-- A write-only host at priority 1. -/
def hostW : Host :=
  { url := "w.example", scheme := "https", accept := 2, priority := 1,
    health := Health.up }

/-- An up read/write host at priority 1. -/
def hostU1 : Host :=
  { url := "u1.example", scheme := "https", accept := 3, priority := 1,
    health := Health.up }

/-- An up read/write host at priority 2. -/
def hostU2 : Host :=
  { url := "u2.example", scheme := "https", accept := 3, priority := 2,
    health := Health.up }

/-- A network oracle: the first host times out at connect, every other host
answers 404. -/
def respC2 : Host → Outcome := fun h =>
  if h.url = "u1.example" then Outcome.retryable "connect timeout"
  else Outcome.fatal 404 "not found"

/-- A network oracle where every host fails retryably. -/
def respRetryAll : Host → Outcome := fun _ =>
  Outcome.retryable "connection refused"

/-- A network oracle where every host answers 200. -/
def respOkAll : Host → Outcome := fun _ =>
  Outcome.success 200 "ok"

/-- A task-status oracle: polls 0, 1, 2 report `notPublished`, poll 3
reports `published`. -/
def statusScenario : Nat → TaskStatus := fun k =>
  if k = 3 then TaskStatus.published else TaskStatus.notPublished

/-! ## Theorems: UserAgent -/

/-- Helper: one `add` call only appends to the previous value. -/
theorem UserAgent.add_append (value segment : String) (ver : Option String) :
    ∃ t, UserAgent.add value segment ver = value ++ t := by
  cases ver with
  | none =>
    exact ⟨"; " ++ segment, by simp [UserAgent.add, String.append_assoc]⟩
  | some v =>
    exact ⟨"; " ++ segment ++ " (" ++ v ++ ")",
      by simp [UserAgent.add, String.append_assoc]⟩

/-- Helper: a sequence of `add` calls only appends to the previous value. -/
theorem UserAgent.addAll_append (ops : List (String × Option String)) :
    ∀ value : String, ∃ t, UserAgent.addAll value ops = value ++ t := by
  induction ops with
  | nil =>
    exact fun value => ⟨"", (String.append_empty value).symm⟩
  | cons op rest ih =>
    intro value
    obtain ⟨seg, ver⟩ := op
    obtain ⟨t1, ht1⟩ := UserAgent.add_append value seg ver
    obtain ⟨t2, ht2⟩ := ih (UserAgent.add value seg ver)
    exact ⟨t1 ++ t2, by rw [UserAgent.addAll, ht2, ht1, String.append_assoc]⟩

/-- Helper: the constructor value decomposes after the product name. -/
theorem UserAgent.init_decomp (v p : String) :
    UserAgent.init v p =
      "Flapjack for Python" ++ (" (" ++ (v ++ ("); Python (" ++ (p ++ ")")))) := by
  show "Flapjack for Python (" ++ v ++ "); Python (" ++ p ++ ")" = _
  simp only [String.append_assoc]
  rw [show "Flapjack for Python (" = "Flapjack for Python" ++ " (" from rfl]
  simp only [String.append_assoc]

/-- C8: a freshly constructed UserAgent's `get()` is exactly
"Flapjack for Python (V); Python (P)" for the package version V and running
Python version P, and in particular begins with "Flapjack for Python". -/
theorem userAgent_init_spec (v p : String) :
    UserAgent.get (UserAgent.init v p) =
      "Flapjack for Python (" ++ v ++ "); Python (" ++ p ++ ")" ∧
    ∃ rest, UserAgent.get (UserAgent.init v p) = "Flapjack for Python" ++ rest := by
  refine ⟨rfl, ⟨" (" ++ (v ++ ("); Python (" ++ (p ++ ")"))), ?_⟩⟩
  exact UserAgent.init_decomp v p

/-- C9: `add` returns the updated object (so calls chain: the state a
subsequent call sees is the returned one), and `get()` afterwards is the
previous value extended with "; segment (version)" when a version is given
and with "; segment" otherwise. -/
theorem userAgent_add_spec (value segment v : String)
    (ops : List (String × Option String)) :
    UserAgent.get (UserAgent.add value segment (some v)) =
      UserAgent.get value ++ "; " ++ segment ++ " (" ++ v ++ ")" ∧
    UserAgent.get (UserAgent.add value segment none) =
      UserAgent.get value ++ "; " ++ segment ∧
    UserAgent.addAll value ((segment, some v) :: ops) =
      UserAgent.addAll (UserAgent.add value segment (some v)) ops :=
  ⟨rfl, rfl, rfl⟩

/-- C10: every `add` only appends: the value before any call is a prefix of
the value after it, across any finite sequence of `add` calls, and the
constructor-produced "Flapjack for Python" stays a substring (here: the
result still decomposes around it). -/
theorem userAgent_append_only (v p value : String)
    (ops : List (String × Option String)) :
    (∀ seg ver, ∃ t, UserAgent.add value seg ver = value ++ t) ∧
    (∃ t, UserAgent.addAll value ops = value ++ t) ∧
    (∃ pre post, UserAgent.addAll (UserAgent.init v p) ops =
      pre ++ ("Flapjack for Python" ++ post)) := by
  refine ⟨fun seg ver => UserAgent.add_append value seg ver,
    UserAgent.addAll_append ops value, ?_⟩
  obtain ⟨t, ht⟩ := UserAgent.addAll_append ops (UserAgent.init v p)
  refine ⟨"", (" (" ++ (v ++ ("); Python (" ++ (p ++ ")")))) ++ t, ?_⟩
  rw [ht, UserAgent.init_decomp v p, String.append_assoc, String.empty_append]

/-! ## Theorems: task waiter -/

/-- Helper: if every poll in the remaining budget reports incomplete, the
loop times out after spending the whole budget. -/
theorem waitAux_timeout (status : Nat → TaskStatus) :
    ∀ fuel k, (∀ j, j < k + fuel → status j = TaskStatus.notPublished) →
      waitAux status fuel k = (WaitResult.timedOut, k + fuel) := by
  intro fuel
  induction fuel with
  | zero =>
    intro k _
    simp [waitAux]
  | succ n ih =>
    intro k h
    have hk : status k = TaskStatus.notPublished := h k (by omega)
    rw [waitAux, if_neg (by simp [hk])]
    rw [ih (k + 1) (fun j hj => h j (by omega))]
    exact congrArg _ (by omega)

/-- Helper: the loop returns `published` right at the first completed poll,
having issued exactly that poll's index plus one polls. -/
theorem waitAux_published (status : Nat → TaskStatus) :
    ∀ fuel k j0, k ≤ j0 → j0 < k + fuel →
      (∀ j, j < j0 → status j = TaskStatus.notPublished) →
      status j0 = TaskStatus.published →
      waitAux status fuel k = (WaitResult.published, j0 + 1) := by
  intro fuel
  induction fuel with
  | zero =>
    intro k j0 h1 h2 _ _
    omega
  | succ n ih =>
    intro k j0 hk hlt hbefore hdone
    by_cases hkj : k = j0
    · subst hkj
      rw [waitAux, if_pos hdone]
    · have hne : status k = TaskStatus.notPublished := hbefore k (by omega)
      rw [waitAux, if_neg (by simp [hne])]
      exact ih (k + 1) j0 (by omega) (by omega) hbefore hdone

/-- C5: when every poll within the max-wait budget reports the task
incomplete, `wait` fails with the timeout result, and the number of polls
issued is `maxWait / pollInterval + 1`, within plus-or-minus one of
`maxWait / pollInterval`. -/
theorem wait_timeout_spec (status : Nat → TaskStatus) (pollInterval maxWait : Nat)
    (h : ∀ j, j < maxPolls pollInterval maxWait → status j = TaskStatus.notPublished) :
    (wait status pollInterval maxWait).1 = WaitResult.timedOut ∧
    (wait status pollInterval maxWait).2 = maxWait / pollInterval + 1 ∧
    maxWait / pollInterval ≤ (wait status pollInterval maxWait).2 ∧
    (wait status pollInterval maxWait).2 ≤ maxWait / pollInterval + 1 := by
  have hw : wait status pollInterval maxWait =
      (WaitResult.timedOut, 0 + maxPolls pollInterval maxWait) :=
    waitAux_timeout status (maxPolls pollInterval maxWait) 0
      (fun j hj => h j (by omega))
  rw [hw]
  refine ⟨rfl, by simp [maxPolls], by simp [maxPolls], by simp [maxPolls]⟩

/-- Witness for C5 at a concrete run: poll interval 100, max wait 300,
every poll incomplete: timeout after exactly 4 polls. -/
theorem wait_timeout_spec_witness :
    (wait (fun _ => TaskStatus.notPublished) 100 300).1 = WaitResult.timedOut ∧
    (wait (fun _ => TaskStatus.notPublished) 100 300).2 = 300 / 100 + 1 ∧
    300 / 100 ≤ (wait (fun _ => TaskStatus.notPublished) 100 300).2 ∧
    (wait (fun _ => TaskStatus.notPublished) 100 300).2 ≤ 300 / 100 + 1 :=
  wait_timeout_spec (fun _ => TaskStatus.notPublished) 100 300 (fun _ _ => rfl)

/-- C6: `wait` transitions to `published` at the first poll that reports
completion and issues no further polls: with the first completed response at
poll index `j0`, exactly `j0 + 1` polls are issued in total. -/
theorem wait_first_published_spec (status : Nat → TaskStatus)
    (pollInterval maxWait j0 : Nat)
    (hj0 : j0 < maxPolls pollInterval maxWait)
    (hbefore : ∀ j, j < j0 → status j = TaskStatus.notPublished)
    (hdone : status j0 = TaskStatus.published) :
    (wait status pollInterval maxWait).1 = WaitResult.published ∧
    (wait status pollInterval maxWait).2 = j0 + 1 := by
  have hw : wait status pollInterval maxWait = (WaitResult.published, j0 + 1) :=
    waitAux_published status (maxPolls pollInterval maxWait) 0 j0
      (Nat.zero_le _) (by omega) hbefore hdone
  rw [hw]
  exact ⟨rfl, rfl⟩

/-- Witness for C6 at the spec's scenario: three `notPublished` responses
followed by a `published` one: success after exactly 4 polls. -/
theorem wait_first_published_spec_witness :
    (wait statusScenario 100 10000).1 = WaitResult.published ∧
    (wait statusScenario 100 10000).2 = 4 :=
  wait_first_published_spec statusScenario 100 10000 3 (by decide)
    (by decide) (by decide)

/-! ## Theorems: host registry marking -/

/-- C7: `mark_success` sets the matched host's health to up (clearing any
down state) and `mark_failure` sets it to down-until(now + cooldown) with
the fixed configured cooldown independent of the host's previous health;
every other registry entry is left unchanged by both. -/
theorem mark_ops_spec (reg : List Host) (u : String) (now cooldown i : Nat)
    (h0 : Host) (hi : reg[i]? = some h0) :
    (h0.url = u →
      (markSuccess reg u)[i]? = some { h0 with health := Health.up } ∧
      (markFailure reg u now cooldown)[i]? =
        some { h0 with health := Health.downUntil (now + cooldown) }) ∧
    (h0.url ≠ u →
      (markSuccess reg u)[i]? = some h0 ∧
      (markFailure reg u now cooldown)[i]? = some h0) := by
  constructor
  · intro hu
    simp [markSuccess, markFailure, hi, hu]
  · intro hu
    simp [markSuccess, markFailure, hi, hu]

/-- Witness for C7 at a concrete registry: marking host `hostB` down and up
rewrites exactly entry 1 of `[hostA, hostB]`. -/
theorem mark_ops_spec_witness :
    (hostB.url = "b.example" →
      (markSuccess [hostA, hostB] "b.example")[1]? =
        some { hostB with health := Health.up } ∧
      (markFailure [hostA, hostB] "b.example" 7 300)[1]? =
        some { hostB with health := Health.downUntil (7 + 300) }) ∧
    (hostB.url ≠ "b.example" →
      (markSuccess [hostA, hostB] "b.example")[1]? = some hostB ∧
      (markFailure [hostA, hostB] "b.example" 7 300)[1]? = some hostB) :=
  mark_ops_spec [hostA, hostB] "b.example" 7 300 1 hostB rfl

/-! ## Theorems: filtering -/

/-- C1: for a collection with at least one read-capable and one
write-capable host, `filter(READ)` returns exactly the hosts whose flags
include READ (none lacking READ appears, and none is lost or duplicated),
sorted by priority; among equal priorities the original insertion order is
kept (stability, stated per priority class). -/
theorem filter_read_spec (hosts : List Host)
    (_hr : ∃ h ∈ hosts, accepts h READ = true)
    (_hw : ∃ h ∈ hosts, accepts h WRITE = true) :
    (∀ h ∈ filterHosts hosts READ, accepts h READ = true) ∧
    List.Perm (filterHosts hosts READ) (hosts.filter fun h => accepts h READ) ∧
    List.Pairwise priorityLE (filterHosts hosts READ) ∧
    ∀ k : Nat,
      List.filter (fun h => h.priority == k) (filterHosts hosts READ) =
      List.filter (fun h => h.priority == k) (hosts.filter fun h => accepts h READ) := by
  refine ⟨?_, ?_, ?_, ?_⟩
  · intro h hm
    have hm2 : h ∈ hosts.filter (fun h => accepts h READ) :=
      (List.perm_insertionSort priorityLE _).mem_iff.mp hm
    exact (List.mem_filter.mp hm2).2
  · exact List.perm_insertionSort priorityLE _
  · exact List.sorted_insertionSort priorityLE _
  · intro k
    simp only [filterHosts]
    set l := hosts.filter (fun h => accepts h READ) with hl
    set pk : Host → Bool := fun h => h.priority == k with hpk
    have hallk : ∀ x ∈ l.filter pk, x.priority = k := by
      intro x hx
      have hx2 := (List.mem_filter.mp hx).2
      simpa [hpk] using hx2
    have hpw : (l.filter pk).Pairwise priorityLE :=
      List.pairwise_of_forall_mem_list (fun a ha b hb => by
        simp [priorityLE, hallk a ha, hallk b hb])
    have hsub : (l.filter pk).Sublist (List.insertionSort priorityLE l) :=
      List.sublist_insertionSort hpw (List.filter_sublist l)
    have hself : (l.filter pk).filter pk = l.filter pk :=
      List.filter_eq_self.mpr (fun a ha => (List.mem_filter.mp ha).2)
    have hsub2 : (l.filter pk).Sublist ((List.insertionSort priorityLE l).filter pk) := by
      have := hsub.filter pk
      rwa [hself] at this
    have hperm : List.Perm ((List.insertionSort priorityLE l).filter pk) (l.filter pk) :=
      (List.perm_insertionSort priorityLE l).filter pk
    exact (hsub2.eq_of_length hperm.length_eq.symm).symm

/-- Witness for C1: a write-only priority-1 host and a read-only priority-2
host; the collection has both capabilities. -/
theorem filter_read_spec_witness :
    (∀ h ∈ filterHosts [hostR, hostW] READ, accepts h READ = true) ∧
    List.Perm (filterHosts [hostR, hostW] READ)
      (List.filter (fun h => accepts h READ) [hostR, hostW]) ∧
    List.Pairwise priorityLE (filterHosts [hostR, hostW] READ) ∧
    ∀ k : Nat,
      List.filter (fun h => h.priority == k) (filterHosts [hostR, hostW] READ) =
      List.filter (fun h => h.priority == k)
        (List.filter (fun h => accepts h READ) [hostR, hostW]) :=
  filter_read_spec [hostR, hostW] (by decide) (by decide)

/-! ## Theorems: retry strategy -/

/-- Helper: `runAttempts` never reports a configuration error. -/
theorem runAttempts_ne_config (responses : Host → Outcome) (now cooldown : Nat) :
    ∀ (tryList reg : List Host),
      (runAttempts responses now cooldown reg tryList).1 ≠ ExecResult.configError := by
  intro tryList
  induction tryList with
  | nil =>
    intro reg
    simp [runAttempts]
  | cons g rest ih =>
    intro reg
    cases hr : responses g with
    | success st bd => simp [runAttempts, hr]
    | fatal st bd => simp [runAttempts, hr]
    | retryable reason =>
      simp only [runAttempts, hr]
      exact ih (markFailure reg g.url now cooldown)

/-- Helper: every attempted host comes from the candidate list. -/
theorem runAttempts_trace_sub (responses : Host → Outcome) (now cooldown : Nat) :
    ∀ (tryList reg : List Host) (h : Host),
      h ∈ (runAttempts responses now cooldown reg tryList).2.1 → h ∈ tryList := by
  intro tryList
  induction tryList with
  | nil =>
    intro reg h hm
    simp [runAttempts] at hm
  | cons g rest ih =>
    intro reg h hm
    cases hr : responses g with
    | success st bd =>
      simp [runAttempts, hr] at hm
      simp [hm]
    | fatal st bd =>
      simp [runAttempts, hr] at hm
      simp [hm]
    | retryable reason =>
      simp only [runAttempts, hr] at hm
      rcases List.mem_cons.mp hm with hg | hrest
      · simp [hg]
      · exact List.mem_cons_of_mem g (ih _ h hrest)

/-- Helper: when every candidate fails retryably, all candidates are
attempted in order and the aggregate error is reported. -/
theorem runAttempts_all_retryable (responses : Host → Outcome) (now cooldown : Nat) :
    ∀ (tryList reg : List Host),
      (∀ h ∈ tryList, (responses h).isRetryable = true) →
      (runAttempts responses now cooldown reg tryList).2.1 = tryList ∧
      (runAttempts responses now cooldown reg tryList).1 = ExecResult.allHostsFailed := by
  intro tryList
  induction tryList with
  | nil =>
    intro reg _
    simp [runAttempts]
  | cons g rest ih =>
    intro reg hall
    have hg : (responses g).isRetryable = true := hall g (by simp)
    cases hr : responses g with
    | success st bd => rw [hr] at hg; simp [Outcome.isRetryable] at hg
    | fatal st bd => rw [hr] at hg; simp [Outcome.isRetryable] at hg
    | retryable reason =>
      have := ih (markFailure reg g.url now cooldown)
        (fun x hx => hall x (List.mem_cons_of_mem g hx))
      simp [runAttempts, hr, this.1, this.2]

/-- Helper: if the first fatal response sits after a block of retryable
ones, `runAttempts` attempts exactly that block plus the fatal host and
surfaces the fatal failure. -/
theorem runAttempts_fatal (responses : Host → Outcome) (now cooldown s : Nat)
    (b : String) :
    ∀ (pre : List Host) (h : Host) (post reg : List Host),
      (∀ g ∈ pre, (responses g).isRetryable = true) →
      responses h = Outcome.fatal s b →
      (runAttempts responses now cooldown reg (pre ++ h :: post)).1 =
        ExecResult.fatalError s b ∧
      (runAttempts responses now cooldown reg (pre ++ h :: post)).2.1 =
        pre ++ [h] := by
  intro pre
  induction pre with
  | nil =>
    intro h post reg _ hh
    simp [runAttempts, hh]
  | cons g rest ih =>
    intro h post reg hpre hh
    have hg : (responses g).isRetryable = true := hpre g (by simp)
    cases hr : responses g with
    | success st bd => rw [hr] at hg; simp [Outcome.isRetryable] at hg
    | fatal st bd => rw [hr] at hg; simp [Outcome.isRetryable] at hg
    | retryable reason =>
      have := ih h post (markFailure reg g.url now cooldown)
        (fun x hx => hpre x (List.mem_cons_of_mem g hx)) hh
      simp [runAttempts, hr, this.1, this.2]

/-- Helper: when every host in the list is down, the whole list is retried. -/
theorem hostsToTry_all_down (hosts : List Host) (now : Nat)
    (hdown : ∀ h ∈ hosts, isUp h now = false) :
    hostsToTry hosts now = hosts := by
  have hnil : hosts.filter (fun h => isUp h now) = [] := by
    rw [List.filter_eq_nil_iff]
    intro a ha
    simp [hdown a ha]
  simp [hostsToTry, hnil]

/-- Helper: when some host in the list is up, only the up hosts are tried. -/
theorem hostsToTry_some_up (hosts : List Host) (now : Nat)
    (hup : ∃ h ∈ hosts, isUp h now = true) :
    hostsToTry hosts now = hosts.filter (fun h => isUp h now) := by
  obtain ⟨h, hm, hu⟩ := hup
  have hne : hosts.filter (fun h => isUp h now) ≠ [] :=
    List.ne_nil_of_mem (List.mem_filter.mpr ⟨hm, hu⟩)
  simp [hostsToTry, List.isEmpty_iff, hne]

/-- Helper: `execute` reports a configuration error exactly when the
filtered host list is empty. -/
theorem execute_configError_iff (responses : Host → Outcome)
    (reg : List Host) (ct now cooldown : Nat) :
    (execute responses reg ct now cooldown).1 = ExecResult.configError ↔
      filterHosts reg ct = [] := by
  by_cases hemp : filterHosts reg ct = []
  · simp [execute, hemp]
  · rw [execute, if_neg (by simp [List.isEmpty_iff, hemp])]
    simp only [hemp, iff_false]
    exact runAttempts_ne_config responses now cooldown _ reg

/-- C3: when the filtered list is nonempty but every host in it is down,
`execute` does not fail with a configuration error and still attempts the
whole filtered list in order (shown with every attempt failing retryably);
a configuration error arises exactly when the filtered list is empty. -/
theorem all_down_degrade_spec (responses : Host → Outcome) (reg : List Host)
    (ct now cooldown : Nat)
    (hne : filterHosts reg ct ≠ [])
    (hdown : ∀ h ∈ filterHosts reg ct, isUp h now = false)
    (hretry : ∀ h ∈ filterHosts reg ct, (responses h).isRetryable = true) :
    (execute responses reg ct now cooldown).2.1 = filterHosts reg ct ∧
    (execute responses reg ct now cooldown).1 ≠ ExecResult.configError ∧
    (∀ (responses2 : Host → Outcome) (reg2 : List Host) (ct2 : Nat),
      (execute responses2 reg2 ct2 now cooldown).1 = ExecResult.configError ↔
        filterHosts reg2 ct2 = []) := by
  have htry : hostsToTry (filterHosts reg ct) now = filterHosts reg ct :=
    hostsToTry_all_down _ now hdown
  have hrun := runAttempts_all_retryable responses now cooldown
    (filterHosts reg ct) reg hretry
  refine ⟨?_, ?_, fun responses2 reg2 ct2 =>
    execute_configError_iff responses2 reg2 ct2 now cooldown⟩
  · rw [execute, if_neg (by simp [List.isEmpty_iff, hne]), htry]
    exact hrun.1
  · intro hc
    exact hne ((execute_configError_iff responses reg ct now cooldown).mp hc)

/-- Witness for C3: both hosts of the registry are down at time 0 and every
attempt fails retryably; the whole filtered list is still attempted. -/
theorem all_down_degrade_spec_witness :
    (execute respRetryAll [hostA, hostBdown] READ 0 300).2.1 =
      filterHosts [hostA, hostBdown] READ ∧
    (execute respRetryAll [hostA, hostBdown] READ 0 300).1 ≠
      ExecResult.configError ∧
    (∀ (responses2 : Host → Outcome) (reg2 : List Host) (ct2 : Nat),
      (execute responses2 reg2 ct2 0 300).1 = ExecResult.configError ↔
        filterHosts reg2 ct2 = []) :=
  all_down_degrade_spec respRetryAll [hostA, hostBdown] READ 0 300
    (by decide) (by decide) (by decide)

/-- C4: in any state, a host whose health is down-until(t) is not attempted
by `execute` while the current time is before `t`, as long as at least one
filtered host is up; once `t` has passed the host counts as up again
(eligible for selection); and a success recorded for it clears its down
state in the registry. -/
theorem down_host_invariant (responses : Host → Outcome) (reg : List Host)
    (ct now cooldown : Nat) (h : Host) (t : Nat)
    (hh : h.health = Health.downUntil t) (hnow : now < t)
    (hup : ∃ g ∈ filterHosts reg ct, isUp g now = true) :
    h ∉ (execute responses reg ct now cooldown).2.1 ∧
    (∀ later, t ≤ later → isUp h later = true) ∧
    (∀ g ∈ markSuccess reg h.url, g.url = h.url → g.health = Health.up) := by
  have hhdown : isUp h now = false := by
    simp [isUp, hh]
    omega
  refine ⟨?_, ?_, ?_⟩
  · intro hmem
    obtain ⟨g, hg, hgu⟩ := hup
    have hne : filterHosts reg ct ≠ [] := List.ne_nil_of_mem hg
    rw [execute, if_neg (by simp [List.isEmpty_iff, hne])] at hmem
    have htry := hostsToTry_some_up (filterHosts reg ct) now ⟨g, hg, hgu⟩
    have hin := runAttempts_trace_sub responses now cooldown _ reg h hmem
    rw [htry] at hin
    have := (List.mem_filter.mp hin).2
    rw [hhdown] at this
    exact Bool.false_ne_true this
  · intro later hle
    simp [isUp, hh]
    omega
  · intro g hg hgu
    obtain ⟨x, hx, hfx⟩ := List.mem_map.mp hg
    by_cases hxu : x.url = h.url
    · rw [if_pos hxu] at hfx
      rw [← hfx]
    · rw [if_neg hxu] at hfx
      rw [← hfx] at hgu
      exact absurd hgu hxu

/-- Witness for C4 at the spec scenario: hosts A(priority 1, down until
100), B(priority 2, up), C(priority 3, up) at time 0: A is not attempted,
is eligible again from time 100 on, and a success clears its down state. -/
theorem down_host_invariant_witness :
    hostA ∉ (execute respOkAll [hostA, hostB, hostC] READ 0 300).2.1 ∧
    (∀ later, 100 ≤ later → isUp hostA later = true) ∧
    (∀ g ∈ markSuccess [hostA, hostB, hostC] hostA.url,
      g.url = hostA.url → g.health = Health.up) :=
  down_host_invariant respOkAll [hostA, hostB, hostC] READ 0 300 hostA 100
    rfl (by decide) (by decide)

/-- C2 counterexample: with two eligible up hosts where the first fails
retryably (connect timeout) and the second answers 404, an attempt does
return a 404 yet `execute` makes two HTTP attempts, not exactly one. -/
theorem fatal_single_attempt_counterexample :
    (∃ h ∈ (execute respC2 [hostU1, hostU2] READ 0 300).2.1,
      respC2 h = Outcome.fatal 404 "not found") ∧
    (execute respC2 [hostU1, hostU2] READ 0 300).2.1.length ≠ 1 ∧
    (execute respC2 [hostU1, hostU2] READ 0 300).2.1.length = 2 ∧
    (execute respC2 [hostU1, hostU2] READ 0 300).1 =
      ExecResult.fatalError 404 "not found" := by
  decide

/-- C2 (amended): once an attempt returns a fatal 4xx response such as a
404, `execute` surfaces the failure immediately and attempts no further
host, regardless of how many eligible hosts remain untried: the attempts
made are exactly the retryably-failing hosts tried before it plus the 404
host itself — in particular a 404 on the first attempt means exactly one
attempt. -/
theorem fatal_not_retried (responses : Host → Outcome) (reg : List Host)
    (ct now cooldown s : Nat) (b : String) (pre : List Host) (h : Host)
    (post : List Host)
    (hsplit : hostsToTry (filterHosts reg ct) now = pre ++ h :: post)
    (hpre : ∀ g ∈ pre, (responses g).isRetryable = true)
    (hh : responses h = Outcome.fatal s b) :
    (execute responses reg ct now cooldown).1 = ExecResult.fatalError s b ∧
    (execute responses reg ct now cooldown).2.1 = pre ++ [h] ∧
    (pre = [] → (execute responses reg ct now cooldown).2.1.length = 1) := by
  have hfne : filterHosts reg ct ≠ [] := by
    intro hnil
    rw [hnil] at hsplit
    simp [hostsToTry] at hsplit
  have hrun := runAttempts_fatal responses now cooldown s b pre h post reg hpre hh
  rw [execute, if_neg (by simp [List.isEmpty_iff, hfne]), hsplit]
  refine ⟨hrun.1, hrun.2, ?_⟩
  intro hpe
  rw [hrun.2, hpe]
  rfl

/-- Witness for the amended C2: the first host times out, the second
answers 404; the attempts are exactly those two hosts and the 404 is
surfaced. -/
theorem fatal_not_retried_witness :
    (execute respC2 [hostU1, hostU2] READ 0 300).1 =
      ExecResult.fatalError 404 "not found" ∧
    (execute respC2 [hostU1, hostU2] READ 0 300).2.1 = [hostU1] ++ [hostU2] ∧
    ([hostU1] = ([] : List Host) →
      (execute respC2 [hostU1, hostU2] READ 0 300).2.1.length = 1) :=
  fatal_not_retried respC2 [hostU1, hostU2] READ 0 300 404 "not found"
    [hostU1] hostU2 [] (by decide) (by decide) (by decide)
